import Mathlib

/-!
# Verification of the forge-agent-demo schema-harmonization engine

Shallow embedding of the mapping/validation core of the repository:
* `src/core/harmonizer_v2.py` — conflict resolution over schema mappings
  (`ForgeAgentHarmonizer.process_csv`, lines 105–134),
* `src/agents/validation_agent.py` — value transformation
  (`_validate_and_transform`), date parsing (`_parse_date`), country
  inference (`_infer_country`), quality scoring
  (`_calculate_quality_score`) and the batch driver
  (`validate_and_enhance_data`).

Modelling conventions:
* Python floats are modelled as exact rationals (`ℚ`).  Only ordering of
  confidences and the parse/no-parse distinction matter for the verified
  properties; IEEE-754 double rounding and the scientific-notation regime
  of Python's `repr` for very large/small magnitudes are not modelled.
* Python strings are modelled by `String`, with the character-level
  operations (split, trim, replace, containment) re-implemented over
  `List Char` so that they compute in the kernel.
* Fallible Python code (`try`/`except`) is modelled with `Except`/`Option`.
-/

set_option maxHeartbeats 1000000

namespace Forge

/-- `SchemaMapping` dataclass from `src/core/models.py` (lines 15–22).
Confidence is a Python float, modelled as an exact rational. -/
structure SchemaMapping where
  source_column : String
  target_field : String
  mapping_confidence : ℚ
  transformation_needed : String
  status : String
  rejection_reason : Option String := none
deriving DecidableEq, Repr

/-- `ValidationResult` dataclass from `src/core/models.py` (lines 25–31). -/
structure ValidationResult where
  field : String
  status : String
  original_value : String
  final_value : String
  action_taken : String
deriving DecidableEq, Repr

/-- `mapping.status == "mapped"`, the test used throughout
`harmonizer_v2.process_csv`. -/
def isMapped (m : SchemaMapping) : Bool :=
  m.status == "mapped"

/-- The rejected decision built for a conflict loser
(`harmonizer_v2.py` lines 124–131). -/
def loserOf (m w : SchemaMapping) : SchemaMapping :=
  { source_column := m.source_column
    target_field := "unmapped"
    mapping_confidence := m.mapping_confidence
    transformation_needed := "none"
    status := "rejected"
    rejection_reason :=
      some ("Duplicate mapping conflict - '" ++ w.source_column ++ "' has higher confidence") }

/-- One step of building `target_field_map` (`harmonizer_v2.py` lines
109–115): a mapped candidate replaces the current entry for its target
field iff its confidence is strictly greater. The Python `dict` is
modelled as a function `String → Option SchemaMapping`. -/
def tfmStep (acc : String → Option SchemaMapping) (m : SchemaMapping) :
    String → Option SchemaMapping :=
  if isMapped m then
    match acc m.target_field with
    | none => fun tf => if tf = m.target_field then some m else acc tf
    | some w =>
      if w.mapping_confidence < m.mapping_confidence then
        fun tf => if tf = m.target_field then some m else acc tf
      else acc
  else acc

/-- Left fold of `tfmStep` over the candidate list. -/
def tfmGo : (String → Option SchemaMapping) → List SchemaMapping → String → Option SchemaMapping
  | acc, [] => acc
  | acc, m :: rest => tfmGo (tfmStep acc m) rest

/-- `target_field_map` after the first pass of `harmonizer_v2.process_csv`
(lines 107–115). -/
def tfm (ms : List SchemaMapping) : String → Option SchemaMapping :=
  tfmGo (fun _ => none) ms

/-- The decision emitted for a mapped candidate in the second pass
(`harmonizer_v2.py` lines 118–132): the candidate itself if it equals the
`target_field_map` entry for its target field, otherwise a rejected
decision naming the winner.  The `none` branch mirrors the (unreachable
for mapped candidates) missing-key case. -/
def decideMapped (tfmF : String → Option SchemaMapping) (m : SchemaMapping) : SchemaMapping :=
  match tfmF m.target_field with
  | some w => if w = m then m else loserOf m w
  | none => m

/-- `resolved_mappings` (`harmonizer_v2.py` lines 105–134): first pass
keeps non-mapped candidates as-is (line 115), second pass emits winner or
rejected-loser decisions for the mapped candidates (lines 118–132). -/
def resolveMappings (ms : List SchemaMapping) : List SchemaMapping :=
  let tfmF := tfm ms
  let pass1 := ms.foldl (fun acc m => if isMapped m then acc else acc ++ [m]) []
  ms.foldl (fun acc m => if isMapped m then acc ++ [decideMapped tfmF m] else acc) pass1

/-- The decision the resolver produces for one input candidate:
non-mapped candidates are kept as-is, mapped candidates go through the
winner/loser test.  (Used to state order-preservation claims.) -/
def decisionFor (ms : List SchemaMapping) (m : SchemaMapping) : SchemaMapping :=
  if isMapped m then decideMapped (tfm ms) m else m

/-- The mapped candidates competing for one target field, in input order. -/
def mappedGroup (ms : List SchemaMapping) (tf : String) : List SchemaMapping :=
  ms.filter (fun m => isMapped m && (m.target_field == tf))

/-- Running maximum-by-confidence with a strict comparison: the current
holder `w` is replaced only by a strictly more confident candidate.  This
is the effect of `tfmStep` restricted to one target-field group. -/
def pickFrom (w : SchemaMapping) : List SchemaMapping → SchemaMapping
  | [] => w
  | m :: rest =>
    if w.mapping_confidence < m.mapping_confidence then pickFrom m rest else pickFrom w rest

/-- The winner of a target-field group: the first candidate attaining the
maximal confidence. -/
def pick : List SchemaMapping → Option SchemaMapping
  | [] => none
  | m :: rest => some (pickFrom m rest)

theorem mappedGroup_cons (m : SchemaMapping) (ms : List SchemaMapping) (tf : String) :
    mappedGroup (m :: ms) tf =
      if isMapped m && (m.target_field == tf) then m :: mappedGroup ms tf
      else mappedGroup ms tf := by
  simp [mappedGroup, List.filter_cons]

/-- The folded `target_field_map` restricted to one key is a running
strict maximum over that key's group. -/
theorem tfmGo_spec (ms : List SchemaMapping) :
    ∀ (acc : String → Option SchemaMapping) (tf : String),
    tfmGo acc ms tf =
      match acc tf with
      | none => pick (mappedGroup ms tf)
      | some w => some (pickFrom w (mappedGroup ms tf)) := by
  induction ms with
  | nil =>
    intro acc tf
    cases h : acc tf <;> simp [tfmGo, mappedGroup, pick, pickFrom, h]
  | cons m rest ih =>
    intro acc tf
    show tfmGo (tfmStep acc m) rest tf = _
    rw [ih]
    by_cases hm : isMapped m
    · by_cases htf : m.target_field = tf
      · subst htf
        cases h : acc m.target_field with
        | none =>
          have hstep : tfmStep acc m m.target_field = some m := by
            simp [tfmStep, hm, h]
          rw [hstep, mappedGroup_cons]
          simp [hm, pick]
        | some w =>
          by_cases hconf : w.mapping_confidence < m.mapping_confidence
          · have hstep : tfmStep acc m m.target_field = some m := by
              simp [tfmStep, hm, h, hconf]
            rw [hstep, mappedGroup_cons]
            simp [hm, pickFrom, hconf]
          · have hstep : tfmStep acc m m.target_field = some w := by
              simp [tfmStep, hm, h, hconf]
            rw [hstep, mappedGroup_cons]
            simp [hm, pickFrom, hconf]
      · have hstep : tfmStep acc m tf = acc tf := by
          cases h : acc m.target_field with
          | none => simp [tfmStep, hm, h, Ne.symm htf]
          | some w =>
            by_cases hconf : w.mapping_confidence < m.mapping_confidence <;>
              simp [tfmStep, hm, h, hconf, Ne.symm htf]
        rw [hstep, mappedGroup_cons]
        have : (m.target_field == tf) = false := by simpa using htf
        simp [this]
    · have hstep : tfmStep acc m tf = acc tf := by simp [tfmStep, hm]
      rw [hstep, mappedGroup_cons]
      have : isMapped m = false := by simpa using hm
      simp [this]

theorem tfm_eq_pick (ms : List SchemaMapping) (tf : String) :
    tfm ms tf = pick (mappedGroup ms tf) := by
  simpa using tfmGo_spec ms (fun _ => none) tf

theorem pickFrom_mem (w : SchemaMapping) (l : List SchemaMapping) :
    pickFrom w l ∈ w :: l := by
  induction l generalizing w with
  | nil => simp [pickFrom]
  | cons m rest ih =>
    rw [pickFrom]
    split
    · have := ih m
      simp only [List.mem_cons] at this ⊢
      tauto
    · have := ih w
      simp only [List.mem_cons] at this ⊢
      tauto

theorem pickFrom_conf_le (w : SchemaMapping) (l : List SchemaMapping) :
    ∀ m ∈ w :: l, m.mapping_confidence ≤ (pickFrom w l).mapping_confidence := by
  induction l generalizing w with
  | nil =>
    intro m hm
    simp only [List.mem_cons, List.not_mem_nil, or_false] at hm
    subst hm
    simp [pickFrom]
  | cons a rest ih =>
    intro m hm
    rw [pickFrom]
    rcases List.mem_cons.mp hm with rfl | hm'
    · split
      · next h => exact le_trans (le_of_lt h) (ih a a (List.mem_cons_self a rest))
      · exact ih m m (List.mem_cons_self m rest)
    · rcases List.mem_cons.mp hm' with rfl | hm''
      · split
        · exact ih m m (List.mem_cons_self m rest)
        · next h =>
          exact le_trans (not_lt.mp h) (ih w w (List.mem_cons_self w rest))
      · split
        · exact ih a m (List.mem_cons_of_mem a hm'')
        · exact ih w m (List.mem_cons_of_mem w hm'')

/-- If the running strict maximum over `l1 ++ w :: l2` lands on `w` (and
`w` occurs nowhere else), every earlier element is strictly less
confident: ties are broken in favour of the first candidate. -/
theorem pickFrom_first :
    ∀ (l1 : List SchemaMapping) (v : SchemaMapping) (l2 : List SchemaMapping)
      (w : SchemaMapping),
    w ∉ v :: l1 → w ∉ l2 → pickFrom v (l1 ++ w :: l2) = w →
    v.mapping_confidence < w.mapping_confidence ∧
      ∀ m ∈ l1, m.mapping_confidence < w.mapping_confidence := by
  intro l1
  induction l1 with
  | nil =>
    intro v l2 w hv hl2 hpick
    rw [List.nil_append, pickFrom] at hpick
    have hvw : w ≠ v := by simpa using hv
    split at hpick
    · next h => exact ⟨h, by intro m hm; cases hm⟩
    · exfalso
      have := pickFrom_mem v l2
      rw [hpick] at this
      rcases List.mem_cons.mp this with h | h
      · exact hvw h
      · exact hl2 h
  | cons a l1' ih =>
    intro v l2 w hv hl2 hpick
    simp only [List.mem_cons, not_or] at hv
    obtain ⟨hwv, hwa, hwl1'⟩ := hv
    rw [List.cons_append, pickFrom] at hpick
    split at hpick
    · next h =>
      have hrec := ih a l2 w (by simp only [List.mem_cons, not_or]; exact ⟨hwa, hwl1'⟩) hl2 hpick
      refine ⟨lt_trans h hrec.1, ?_⟩
      intro m hm
      rcases List.mem_cons.mp hm with rfl | hm'
      · exact hrec.1
      · exact hrec.2 m hm'
    · next h =>
      have hrec := ih v l2 w (by simp only [List.mem_cons, not_or]; exact ⟨hwv, hwl1'⟩) hl2 hpick
      refine ⟨hrec.1, ?_⟩
      intro m hm
      rcases List.mem_cons.mp hm with rfl | hm'
      · exact lt_of_le_of_lt (not_lt.mp h) hrec.1
      · exact hrec.2 m hm'

/-- A `target_field_map` entry is a mapped input candidate targeting its
key. -/
theorem tfm_shape {ms : List SchemaMapping} {tf : String} {w : SchemaMapping}
    (h : tfm ms tf = some w) :
    w ∈ ms ∧ isMapped w = true ∧ w.target_field = tf := by
  rw [tfm_eq_pick] at h
  cases hg : mappedGroup ms tf with
  | nil => rw [hg] at h; exact absurd h (by simp [pick])
  | cons g0 grest =>
    rw [hg, pick, Option.some.injEq] at h
    have hmem : w ∈ g0 :: grest := h ▸ pickFrom_mem g0 grest
    have hw : w ∈ mappedGroup ms tf := by rw [hg]; exact hmem
    have := List.mem_filter.mp hw
    refine ⟨this.1, ?_, ?_⟩
    · have h2 := this.2
      simp only [Bool.and_eq_true, beq_iff_eq] at h2
      exact h2.1
    · have h2 := this.2
      simp only [Bool.and_eq_true, beq_iff_eq] at h2
      exact h2.2

/-- The `target_field_map` entry dominates every mapped candidate of its
group. -/
theorem tfm_conf_max {ms : List SchemaMapping} {tf : String} {w : SchemaMapping}
    (h : tfm ms tf = some w) :
    ∀ m ∈ ms, isMapped m = true → m.target_field = tf →
      m.mapping_confidence ≤ w.mapping_confidence := by
  intro m hm hmap htf
  have hmg : m ∈ mappedGroup ms tf := by
    refine List.mem_filter.mpr ⟨hm, ?_⟩
    simp [hmap, htf]
  rw [tfm_eq_pick] at h
  cases hg : mappedGroup ms tf with
  | nil => rw [hg] at hmg; cases hmg
  | cons g0 grest =>
    rw [hg, pick, Option.some.injEq] at h
    rw [hg] at hmg
    rw [← h]
    exact pickFrom_conf_le g0 grest m hmg

/-- Every mapped candidate has a `target_field_map` entry for its target
field (the dictionary lookup in the second pass never misses). -/
theorem tfm_isSome {ms : List SchemaMapping} {m : SchemaMapping}
    (hm : m ∈ ms) (hmap : isMapped m = true) :
    ∃ w, tfm ms m.target_field = some w := by
  have hmg : m ∈ mappedGroup ms m.target_field := by
    refine List.mem_filter.mpr ⟨hm, ?_⟩
    simp [hmap]
  rw [tfm_eq_pick]
  cases hg : mappedGroup ms m.target_field with
  | nil => rw [hg] at hmg; cases hmg
  | cons g0 grest => exact ⟨pickFrom g0 grest, rfl⟩

/-- Ties are broken by input order: any candidate of the group occurring
strictly before the `target_field_map` entry is strictly less confident. -/
theorem tfm_first {ms : List SchemaMapping} {tf : String} {w : SchemaMapping}
    (hnd : ms.Nodup) (h : tfm ms tf = some w) :
    ∀ l1 l2, ms = l1 ++ w :: l2 → ∀ m ∈ l1, isMapped m = true → m.target_field = tf →
      m.mapping_confidence < w.mapping_confidence := by
  intro l1 l2 hms m hm hmap htf
  obtain ⟨hwmem, hwmap, hwtf⟩ := tfm_shape h
  subst hms
  rw [List.nodup_append] at hnd
  obtain ⟨hnd1, hnd2, hdisj⟩ := hnd
  have hw1 : w ∉ l1 := fun hws => hdisj hws (List.mem_cons_self w l2)
  have hw2 : w ∉ l2 := (List.nodup_cons.mp hnd2).1
  have hgroup : mappedGroup (l1 ++ w :: l2) tf
      = mappedGroup l1 tf ++ w :: mappedGroup l2 tf := by
    simp [mappedGroup, List.filter_append, List.filter_cons, hwmap, hwtf]
  have hpick : pick (mappedGroup (l1 ++ w :: l2) tf) = some w := by
    rw [← tfm_eq_pick]; exact h
  rw [hgroup] at hpick
  have hmG : m ∈ mappedGroup l1 tf := List.mem_filter.mpr ⟨hm, by simp [hmap, htf]⟩
  have hwG1 : w ∉ mappedGroup l1 tf := fun hx => hw1 (List.mem_of_mem_filter hx)
  have hwG2 : w ∉ mappedGroup l2 tf := fun hx => hw2 (List.mem_of_mem_filter hx)
  cases hG : mappedGroup l1 tf with
  | nil => rw [hG] at hmG; cases hmG
  | cons g0 G1 =>
    rw [hG] at hpick hmG hwG1
    rw [List.cons_append] at hpick
    have hpick2 : pickFrom g0 (G1 ++ w :: mappedGroup l2 tf) = w := Option.some.inj hpick
    have hfirst := pickFrom_first G1 g0 (mappedGroup l2 tf) w hwG1 hwG2 hpick2
    rcases List.mem_cons.mp hmG with rfl | hm'
    · exact hfirst.1
    · exact hfirst.2 m hm'

/-- A fold that appends `f m` for every element satisfying `p` is
`filter`-then-`map`. -/
theorem foldl_emit {α β : Type} (p : α → Bool) (f : α → β) :
    ∀ (ms : List α) (init : List β),
    ms.foldl (fun acc m => if p m then acc ++ [f m] else acc) init
      = init ++ (ms.filter p).map f := by
  intro ms
  induction ms with
  | nil => intro init; simp
  | cons m rest ih =>
    intro init
    by_cases h : p m <;>
      simp [List.foldl_cons, h, List.filter_cons, ih]

/-- A fold that keeps the elements violating `p` is a `filter`. -/
theorem foldl_keep {α : Type} (p : α → Bool) :
    ∀ (ms : List α) (init : List α),
    ms.foldl (fun acc m => if p m then acc else acc ++ [m]) init
      = init ++ ms.filter (fun m => !p m) := by
  intro ms
  induction ms with
  | nil => intro init; simp
  | cons m rest ih =>
    intro init
    by_cases h : p m <;>
      simp [List.foldl_cons, h, List.filter_cons, ih]

/-- The two passes of the resolver: all non-mapped candidates (in input
order) followed by the emitted decisions of the mapped candidates (in
input order). -/
theorem resolveMappings_eq (ms : List SchemaMapping) :
    resolveMappings ms =
      ms.filter (fun m => !isMapped m)
        ++ (ms.filter (fun m => isMapped m)).map (decideMapped (tfm ms)) := by
  show ms.foldl _ (ms.foldl _ []) = _
  rw [foldl_keep, foldl_emit]
  simp

/-- C1. Conflict resolution: among the tentatively-mapped candidates
sharing one `target_field`, the `target_field_map` entry `w` is a mapped
input candidate of that group, has the (weakly) maximal confidence, is
strictly more confident than every group member occurring before it
(ties are broken by input order: the first candidate wins), is emitted as
the winner by the resolver, and every other group member is emitted as
`rejected` with a rejection reason naming the winning source column.
The distinct-source-column hypothesis reflects the data model (one
candidate per source column). -/
theorem conflict_resolution_winner
    (ms : List SchemaMapping) (tf : String) (w : SchemaMapping)
    (hnd : (ms.map SchemaMapping.source_column).Nodup)
    (hw : tfm ms tf = some w) :
    w ∈ ms ∧
    isMapped w = true ∧
    w.target_field = tf ∧
    (∀ m ∈ ms, isMapped m = true → m.target_field = tf →
      m.mapping_confidence ≤ w.mapping_confidence) ∧
    (∀ l1 l2, ms = l1 ++ w :: l2 → ∀ m ∈ l1, isMapped m = true → m.target_field = tf →
      m.mapping_confidence < w.mapping_confidence) ∧
    decideMapped (tfm ms) w = w ∧
    w ∈ resolveMappings ms ∧
    (∀ m ∈ ms, isMapped m = true → m.target_field = tf → m ≠ w →
      decideMapped (tfm ms) m = loserOf m w ∧
      loserOf m w ∈ resolveMappings ms ∧
      (loserOf m w).status = "rejected" ∧
      (loserOf m w).rejection_reason =
        some ("Duplicate mapping conflict - '" ++ w.source_column ++ "' has higher confidence")) := by
  obtain ⟨hwmem, hwmap, hwtf⟩ := tfm_shape hw
  have hndms : ms.Nodup := hnd.of_map
  have hdw : decideMapped (tfm ms) w = w := by
    simp [decideMapped, hwtf, hw]
  refine ⟨hwmem, hwmap, hwtf, tfm_conf_max hw, tfm_first hndms hw, hdw, ?_, ?_⟩
  · rw [resolveMappings_eq]
    exact List.mem_append_right _
      (List.mem_map.mpr ⟨w, List.mem_filter.mpr ⟨hwmem, hwmap⟩, hdw⟩)
  · intro m hm hmap htf hne
    have hdm : decideMapped (tfm ms) m = loserOf m w := by
      simp [decideMapped, htf, hw, Ne.symm hne]
    refine ⟨hdm, ?_, rfl, rfl⟩
    rw [resolveMappings_eq]
    exact List.mem_append_right _
      (List.mem_map.mpr ⟨m, List.mem_filter.mpr ⟨hm, hmap⟩, hdm⟩)

/-- The `"precio"` candidate of the spec's conflict-resolution example:
confidence 0.90, targeting `unit_price`. -/
def precioM : SchemaMapping :=
  ⟨"precio", "unit_price", mkRat 9 10, "convert_to_decimal", "mapped", none⟩

/-- The `"price_unit"` candidate of the spec's conflict-resolution
example: confidence 0.95, targeting `unit_price`. -/
def priceUnitM : SchemaMapping :=
  ⟨"price_unit", "unit_price", mkRat 19 20, "convert_to_decimal", "mapped", none⟩

/-- Witness for C1 at the spec's example: `price_unit` (0.95) beats
`precio` (0.90) for `unit_price`; `precio` is rejected with a reason
naming `price_unit`. -/
theorem conflict_resolution_winner_witness :
    tfm [precioM, priceUnitM] "unit_price" = some priceUnitM ∧
    priceUnitM ∈ resolveMappings [precioM, priceUnitM] ∧
    decideMapped (tfm [precioM, priceUnitM]) precioM = loserOf precioM priceUnitM ∧
    loserOf precioM priceUnitM ∈ resolveMappings [precioM, priceUnitM] ∧
    (loserOf precioM priceUnitM).status = "rejected" ∧
    (loserOf precioM priceUnitM).rejection_reason =
      some "Duplicate mapping conflict - 'price_unit' has higher confidence" := by
  have h : tfm [precioM, priceUnitM] "unit_price" = some priceUnitM := by decide
  have hmain := conflict_resolution_winner [precioM, priceUnitM] "unit_price" priceUnitM
    (by decide) h
  have hlose := hmain.2.2.2.2.2.2.2 precioM (by decide) (by decide) (by decide) (by decide)
  exact ⟨h, hmain.2.2.2.2.2.2.1, hlose.1, hlose.2.1, hlose.2.2.1, hlose.2.2.2⟩

/-- Vacuous pairwise: if every element of `l` is related to everything,
`l` is pairwise related. -/
theorem pairwise_of_forall_left {α : Type} {R : α → α → Prop} :
    ∀ (l : List α), (∀ a ∈ l, ∀ b, R a b) → l.Pairwise R := by
  intro l h
  induction l with
  | nil => exact List.Pairwise.nil
  | cons x xs ih =>
    exact List.Pairwise.cons (fun b _ => h x (List.mem_cons_self x xs) b)
      (ih fun a ha b => h a (List.mem_cons_of_mem x ha) b)

/-- A decision emitted for a mapped candidate that still has status
`"mapped"` is the candidate itself, and it is its own `target_field_map`
entry (losers get status `"rejected"`). -/
theorem decideMapped_self {ms : List SchemaMapping} {m : SchemaMapping}
    (hm : m ∈ ms) (hmap : isMapped m = true)
    (hst : (decideMapped (tfm ms) m).status = "mapped") :
    decideMapped (tfm ms) m = m ∧ tfm ms m.target_field = some m := by
  obtain ⟨w, hw⟩ := tfm_isSome hm hmap
  have hd : decideMapped (tfm ms) m = if w = m then m else loserOf m w := by
    unfold decideMapped
    rw [hw]
  by_cases hwm : w = m
  · subst hwm
    rw [hd, if_pos rfl]
    exact ⟨rfl, hw⟩
  · rw [hd, if_neg hwm] at hst
    exact absurd hst (by simp [loserOf])

/-- C2. Injectivity invariant: in the resolver output, no two decisions
with status `"mapped"` share a `target_field` — the mapped decisions form
a partial injective mapping from source columns to target fields.  The
hypothesis (pairwise-distinct source columns) reflects the data model:
one candidate per source column. -/
theorem resolver_injective (ms : List SchemaMapping)
    (hnd : (ms.map SchemaMapping.source_column).Nodup) :
    (resolveMappings ms).Pairwise
      (fun a b => a.status = "mapped" → b.status = "mapped" →
        a.target_field ≠ b.target_field) := by
  have hndms : ms.Nodup := hnd.of_map
  rw [resolveMappings_eq, List.pairwise_append]
  have hvac : ∀ a ∈ ms.filter (fun m => !isMapped m), ¬(a.status = "mapped") := by
    intro a ha
    have h2 := (List.mem_filter.mp ha).2
    simp only [Bool.not_eq_true'] at h2
    simp only [isMapped, beq_eq_false_iff_ne, ne_eq] at h2
    exact h2
  refine ⟨?_, ?_, ?_⟩
  · exact pairwise_of_forall_left _ (fun a ha b hmap _ => absurd hmap (hvac a ha))
  · rw [List.pairwise_map]
    refine List.Pairwise.imp_of_mem ?_ (hndms.filter (fun m => isMapped m))
    intro a b ha hb hne hsa hsb
    have hma := (List.mem_filter.mp ha)
    have hmb := (List.mem_filter.mp hb)
    obtain ⟨hda, hta⟩ := decideMapped_self hma.1 hma.2 hsa
    obtain ⟨hdb, htb⟩ := decideMapped_self hmb.1 hmb.2 hsb
    rw [hda, hdb]
    intro heq
    rw [heq] at hta
    rw [hta] at htb
    exact hne (Option.some.inj htb)
  · intro a ha b _ hmap _
    exact absurd hmap (hvac a ha)

/-- Witness for C2 at the conflict example: the resolved list for
`precio`/`price_unit` has pairwise-distinct mapped target fields. -/
theorem resolver_injective_witness :
    ([precioM, priceUnitM].map SchemaMapping.source_column).Nodup ∧
    (resolveMappings [precioM, priceUnitM]).Pairwise
      (fun a b => a.status = "mapped" → b.status = "mapped" →
        a.target_field ≠ b.target_field) :=
  ⟨by decide, resolver_injective _ (by decide)⟩

/-- A mapped candidate of the C3 counterexample. -/
def c3A : SchemaMapping :=
  ⟨"a", "quantity", mkRat 9 10, "convert_to_integer", "mapped", none⟩

/-- A rejected candidate of the C3 counterexample. -/
def c3B : SchemaMapping :=
  ⟨"b", "unmapped", mkRat 1 10, "none", "rejected", some "Low AI confidence"⟩

/-- C3 counterexample: the resolver is not order-preserving.  For the
input `[c3A (mapped), c3B (rejected)]` the emitted sequence starts with
the decision for the *second* candidate (`"b"`), because the first pass
appends all non-mapped candidates before the second pass emits the mapped
ones; so the i-th decision is not the decision for the i-th candidate. -/
theorem resolver_not_order_preserving :
    [c3A, c3B].map SchemaMapping.source_column = ["a", "b"] ∧
    (resolveMappings [c3A, c3B]).map SchemaMapping.source_column = ["b", "a"] ∧
    resolveMappings [c3A, c3B] ≠ [c3A, c3B].map (decisionFor [c3A, c3B]) := by
  exact ⟨rfl, by decide, by decide⟩

/-- C3 amended: the resolver emits exactly one decision per input
candidate — the output is a permutation of the per-candidate decisions
and has the input's length — but in the order: all non-mapped
candidates first (in input order), then the decisions for the mapped
candidates (in input order). -/
theorem resolver_decisions_amended (ms : List SchemaMapping) :
    (resolveMappings ms).length = ms.length ∧
    (resolveMappings ms).Perm (ms.map (decisionFor ms)) ∧
    resolveMappings ms =
      ms.filter (fun m => !isMapped m)
        ++ (ms.filter (fun m => isMapped m)).map (decideMapped (tfm ms)) := by
  have heq := resolveMappings_eq ms
  have h1 : (ms.filter (fun m => isMapped m)).map (decisionFor ms)
      = (ms.filter (fun m => isMapped m)).map (decideMapped (tfm ms)) := by
    apply List.map_congr_left
    intro a ha
    have h2 := (List.mem_filter.mp ha).2
    simp [decisionFor, h2]
  have h2 : (ms.filter (fun m => !isMapped m)).map (decisionFor ms)
      = ms.filter (fun m => !isMapped m) := by
    have hid : ∀ a ∈ ms.filter (fun m => !isMapped m), decisionFor ms a = id a := by
      intro a ha
      have h3 := (List.mem_filter.mp ha).2
      simp only [Bool.not_eq_true'] at h3
      simp [decisionFor, h3]
    rw [List.map_congr_left hid, List.map_id]
  have hperm : (resolveMappings ms).Perm (ms.map (decisionFor ms)) := by
    rw [heq]
    have hp := (List.filter_append_perm (fun m => isMapped m) ms).map (decisionFor ms)
    rw [List.map_append, h1, h2] at hp
    exact (List.perm_append_comm).trans hp
  refine ⟨?_, hperm, heq⟩
  have := hperm.length_eq
  simpa using this

/-! ## Character-level string utilities

Python string operations re-implemented over `List Char` so that they
compute by kernel reduction. -/

/-- Python `str.strip()`: whitespace removed from both ends. -/
def trimChars (cs : List Char) : List Char :=
  ((cs.dropWhile Char.isWhitespace).reverse.dropWhile Char.isWhitespace).reverse

/-- Value of a run of decimal digits. -/
def digitsVal (cs : List Char) : Nat :=
  cs.foldl (fun a c => a * 10 + (c.toNat - '0'.toNat)) 0

/-- Split on a single separator character (the effect of matching a
`strptime` pattern whose fields are joined by one literal character). -/
def splitOnSep (sep : Char) : List Char → List (List Char)
  | [] => [[]]
  | c :: rest =>
    if c = sep then [] :: splitOnSep sep rest
    else
      match splitOnSep sep rest with
      | g :: gs => (c :: g) :: gs
      | [] => [[c]]

/-! ## Date parsing (`_parse_date`, `validation_agent.py` lines 195–216)

`datetime.strptime` is modelled after CPython's `_strptime` regexes:
`%Y` is exactly four digits, `%m` is one or two digits valued 1–12, `%d`
is one or two digits valued 1–31, and the `datetime` constructor then
checks the day against the month length (`MINYEAR = 1`). -/

/-- `%Y`: exactly four decimal digits. -/
def parseYear (cs : List Char) : Option Nat :=
  if cs.length = 4 ∧ cs.all Char.isDigit then some (digitsVal cs) else none

/-- `%m`: one or two decimal digits with value 1–12. -/
def parseMonth (cs : List Char) : Option Nat :=
  if (cs.length = 1 ∨ cs.length = 2) ∧ cs.all Char.isDigit then
    if 1 ≤ digitsVal cs ∧ digitsVal cs ≤ 12 then some (digitsVal cs) else none
  else none

/-- `%d`: one or two decimal digits with value 1–31. -/
def parseDay (cs : List Char) : Option Nat :=
  if (cs.length = 1 ∨ cs.length = 2) ∧ cs.all Char.isDigit then
    if 1 ≤ digitsVal cs ∧ digitsVal cs ≤ 31 then some (digitsVal cs) else none
  else none

/-- Gregorian leap year, as `datetime` computes it. -/
def isLeap (y : Nat) : Bool :=
  y % 4 == 0 && (y % 100 != 0 || y % 400 == 0)

/-- Days in a month, as validated by the `datetime` constructor. -/
def daysInMonth (y m : Nat) : Nat :=
  if m == 2 then (if isLeap y then 29 else 28)
  else if m == 4 || m == 6 || m == 9 || m == 11 then 30
  else 31

/-- The `datetime(year, month, day)` constructor check (`MINYEAR = 1`;
the month range and the lower bounds are already enforced by the
`%m`/`%d` patterns). -/
def dateOk (y m d : Nat) : Bool :=
  decide (1 ≤ y) && decide (d ≤ daysInMonth y m)

/-- Field order of a three-component date pattern. -/
inductive DOrder where
  | ymd
  | dmy
  | mdy
deriving DecidableEq, Repr

/-- One `datetime.strptime(date_str, pattern)` attempt for a pattern of
three fields joined by the single separator `sep`. -/
def strptimeDate (sep : Char) (ord : DOrder) (cs : List Char) : Option (Nat × Nat × Nat) :=
  match splitOnSep sep cs with
  | [a, b, c] =>
    match ord with
    | DOrder.ymd =>
      match parseYear a, parseMonth b, parseDay c with
      | some y, some mo, some d => if dateOk y mo d then some (y, mo, d) else none
      | _, _, _ => none
    | DOrder.dmy =>
      match parseYear c, parseMonth b, parseDay a with
      | some y, some mo, some d => if dateOk y mo d then some (y, mo, d) else none
      | _, _, _ => none
    | DOrder.mdy =>
      match parseYear c, parseMonth a, parseDay b with
      | some y, some mo, some d => if dateOk y mo d then some (y, mo, d) else none
      | _, _, _ => none
  | _ => none

/-- The ordered pattern list of `_parse_date` (`validation_agent.py`
lines 200–206): `%Y-%m-%d`, `%d/%m/%Y`, `%m/%d/%Y`, `%d.%m.%Y`,
`%d-%m-%Y`. -/
def datePatterns : List (Char × DOrder) :=
  [('-', DOrder.ymd), ('/', DOrder.dmy), ('/', DOrder.mdy),
   ('.', DOrder.dmy), ('-', DOrder.dmy)]

/-- First pattern that parses wins. -/
def tryPatterns : List (Char × DOrder) → List Char → Option (Nat × Nat × Nat)
  | [], _ => none
  | p :: ps, cs =>
    match strptimeDate p.1 p.2 cs with
    | some r => some r
    | none => tryPatterns ps cs

/-- Zero-pad to two digits (`%m`, `%d` of `strftime`). -/
def pad2 (n : Nat) : String :=
  if n < 10 then "0" ++ toString n else toString n

/-- `strftime("%Y-%m-%d")` (year unpadded, as glibc prints it; every
input parsed by `%Y` has exactly four digits, so the verified claims
never reach a sub-four-digit year with a nonzero leading digit). -/
def formatISO (y m d : Nat) : String :=
  toString y ++ "-" ++ pad2 m ++ "-" ++ pad2 d

/-- `_parse_date` (`validation_agent.py` lines 195–216): strip the
stringified value, try the patterns in order, normalize the first hit to
ISO text; if none match, return the *stripped* string. -/
def parse_date (s : String) : String :=
  match tryPatterns datePatterns (trimChars s.toList) with
  | some (y, m, d) => formatISO y m d
  | none => String.mk (trimChars s.toList)

example : parse_date "15.01.2024" = "2024-01-15" := by decide
example : parse_date "2024-01-15" = "2024-01-15" := by decide
example : parse_date "15-01-2024" = "2024-01-15" := by decide
example : parse_date "01/15/2024" = "2024-01-15" := by decide
example : parse_date "03/04/2024" = "2024-04-03" := by decide
example : parse_date "not-a-date" = "not-a-date" := by decide
example : parse_date " not-a-date " = "not-a-date" := by decide
example : parse_date "30.02.2024" = "30.02.2024" := by decide
example : parse_date "29.02.2024" = "2024-02-29" := by decide
example : parse_date "29.02.2023" = "29.02.2023" := by decide

/-! ## Python `float()` parsing and printing

Used by the `convert_to_integer` / `convert_to_decimal` branches of
`_validate_and_transform` (`validation_agent.py` lines 146–170).  The
grammar follows CPython: optional surrounding whitespace, optional sign,
then `inf`/`infinity`/`nan` (case-insensitive) or a decimal mantissa with
optional exponent; PEP 515 underscores are allowed between digits.
Finite values are kept exact. -/

/-- Classification of a Python float value. -/
inductive PyFloat where
  | finite (q : ℚ)
  | inf
  | ninf
  | nan
deriving DecidableEq, Repr

/-- Consume the continuation of a digit group `d(_?d)*`: digits with
underscores allowed between digits.  Returns the accumulated digits
(underscores dropped) and the unconsumed rest. -/
def digitGroupGo (acc : List Char) : List Char → List Char × List Char
  | '_' :: c :: rest =>
    if c.isDigit then digitGroupGo (acc ++ [c]) rest else (acc, '_' :: c :: rest)
  | c :: rest =>
    if c.isDigit then digitGroupGo (acc ++ [c]) rest else (acc, c :: rest)
  | [] => (acc, [])

/-- A digit group must start with a digit. -/
def digitGroup : List Char → Option (List Char × List Char)
  | c :: rest => if c.isDigit then some (digitGroupGo [c] rest) else none
  | [] => none

/-- Mantissa: `digits[.digits]`, `digits.`, or `.digits`.  Returns all
mantissa digits, the count of fractional digits, and the rest. -/
def parseMantissa (cs : List Char) : Option (List Char × Nat × List Char) :=
  match digitGroup cs with
  | some (ds, rest) =>
    match rest with
    | '.' :: rest2 =>
      match digitGroup rest2 with
      | some (fs, rest3) => some (ds ++ fs, fs.length, rest3)
      | none => some (ds, 0, rest2)
    | _ => some (ds, 0, rest)
  | none =>
    match cs with
    | '.' :: rest2 =>
      match digitGroup rest2 with
      | some (fs, rest3) => some (fs, fs.length, rest3)
      | none => none
    | _ => none

/-- Optional exponent: `none` means a malformed exponent (an `e`/`E`
without digits, which fails the whole parse); `some (e, rest)` otherwise,
with `e = 0` when no exponent is present. -/
def parseExpPart (cs : List Char) : Option (Int × List Char) :=
  match cs with
  | c :: rest =>
    if c = 'e' ∨ c = 'E' then
      match rest with
      | '+' :: rest2 =>
        match digitGroup rest2 with
        | some (ds, r) => some ((digitsVal ds : Int), r)
        | none => none
      | '-' :: rest2 =>
        match digitGroup rest2 with
        | some (ds, r) => some (-(digitsVal ds : Int), r)
        | none => none
      | _ =>
        match digitGroup rest with
        | some (ds, r) => some ((digitsVal ds : Int), r)
        | none => none
    else some (0, cs)
  | [] => some (0, [])

/-- The exact rational `sgn · digits · 10 ^ (e - fracLen)`, computed with
integer arithmetic and `mkRat` only (so it reduces in the kernel). -/
def ratOfParts (sgn : Int) (digits : Nat) (fracLen : Nat) (e : Int) : ℚ :=
  if 0 ≤ e - (fracLen : Int) then
    mkRat (sgn * (digits : Int) * 10 ^ (e - (fracLen : Int)).toNat) 1
  else
    mkRat (sgn * (digits : Int)) (10 ^ ((fracLen : Int) - e).toNat)

/-- All-whitespace test (trailing whitespace is allowed by `float()`). -/
def wsOnly (cs : List Char) : Bool := cs.all Char.isWhitespace

/-- `float(str)` (CPython `PyOS_string_to_double`); `none` models a
`ValueError`.  The finite value is exact — IEEE-754 rounding and the
overflow of huge exponents to `inf` are not modelled (the verified
claims do not depend on them). -/
def pyFloatParseChars (cs0 : List Char) : Option PyFloat :=
  let cs1 := cs0.dropWhile Char.isWhitespace
  let sgn : Int := match cs1 with
    | '-' :: _ => -1
    | _ => 1
  let cs2 : List Char := match cs1 with
    | '+' :: r => r
    | '-' :: r => r
    | _ => cs1
  let lower := cs2.map Char.toLower
  if lower.take 8 = "infinity".toList then
    if wsOnly (cs2.drop 8) then some (if sgn = 1 then PyFloat.inf else PyFloat.ninf) else none
  else if lower.take 3 = "inf".toList then
    if wsOnly (cs2.drop 3) then some (if sgn = 1 then PyFloat.inf else PyFloat.ninf) else none
  else if lower.take 3 = "nan".toList then
    if wsOnly (cs2.drop 3) then some PyFloat.nan else none
  else
    match parseMantissa cs2 with
    | some (ds, fracLen, rest) =>
      match parseExpPart rest with
      | some (e, rest2) =>
        if wsOnly rest2 then some (PyFloat.finite (ratOfParts sgn (digitsVal ds) fracLen e))
        else none
      | none => none
    | none => none

/-- Smallest `k` (fuel-bounded) with `b ∣ 10 ^ k`; the denominators of
parsed floats are always of the form `2^i·5^j`, for which fuel `b`
suffices. -/
def findKGo (b : Nat) : Nat → Nat → Nat
  | 0, k => k
  | fuel + 1, k => if 10 ^ k % b = 0 then k else findKGo b fuel (k + 1)

/-- Decimal digits needed to write a fraction with denominator `b`. -/
def findK (b : Nat) : Nat := findKGo b b 0

/-- Drop trailing `'0'` characters. -/
def stripTrailZeros (cs : List Char) : List Char :=
  (cs.reverse.dropWhile (fun c => c = '0')).reverse

/-- Left-pad with `'0'` to length `k`. -/
def padLeftZeros (k : Nat) (s : List Char) : List Char :=
  List.replicate (k - s.length) '0' ++ s

/-- `str(float)` for finite values in the positional regime
(`42.0`, `19.99`, `0.0`): integer part, a dot, and the fractional digits
with trailing zeros dropped (at least one digit).  Python's switch to
scientific notation outside `[1e-4, 1e16)` is not modelled. -/
def renderFinite (q : ℚ) : String :=
  (if q.num < 0 then "-" else "")
    ++ toString (q.num.natAbs * 10 ^ findK q.den / q.den / 10 ^ findK q.den)
    ++ "."
    ++ (if (stripTrailZeros (padLeftZeros (findK q.den)
            (toString (q.num.natAbs * 10 ^ findK q.den / q.den % 10 ^ findK q.den)).toList)).isEmpty
        then "0"
        else String.mk (stripTrailZeros (padLeftZeros (findK q.den)
          (toString (q.num.natAbs * 10 ^ findK q.den / q.den % 10 ^ findK q.den)).toList)))

/-- `str()` of a Python float. -/
def pyStrFloat : PyFloat → String
  | PyFloat.finite q => renderFinite q
  | PyFloat.inf => "inf"
  | PyFloat.ninf => "-inf"
  | PyFloat.nan => "nan"

/-- `int(float)`: truncation toward zero; `int(inf)`/`int(nan)` raise
(modelled as `none`). -/
def intOfPyFloat : PyFloat → Option Int
  | PyFloat.finite q => some (Int.tdiv q.num (q.den : Int))
  | _ => none

/-- `str(value).replace(",", "").replace(" ", "")` of the
`convert_to_integer` branch (line 149). -/
def cleanIntChars (cs : List Char) : List Char :=
  cs.filter (fun c => !(c == ',') && !(c == ' '))

/-- `int(float(clean_val))` of the `convert_to_integer` branch
(line 150); `none` models the exception caught at line 154. -/
def convertCleanInt (s : String) : Option Int :=
  (pyFloatParseChars (cleanIntChars s.toList)).bind intOfPyFloat

/-- `str(value).replace(",", ".")` of the `convert_to_decimal` branch
(line 162). -/
def commaToDot (cs : List Char) : List Char :=
  cs.map (fun c => if c = ',' then '.' else c)

example : convertCleanInt "1,200" = some 1200 := by decide
example : convertCleanInt "42" = some 42 := by decide
example : convertCleanInt "abc" = none := by decide
example : convertCleanInt "19.99" = some 19 := by decide
example : convertCleanInt "-12" = some (-12) := by decide
example : convertCleanInt "1e3" = some 1000 := by decide
example : convertCleanInt "inf" = none := by decide
example : convertCleanInt "1_200" = some 1200 := by decide
example : pyFloatParseChars (commaToDot "19,99".toList) = some (PyFloat.finite (mkRat 1999 100)) := by decide
example : pyFloatParseChars "1.2.3".toList = none := by decide
example : pyFloatParseChars " 42 ".toList = some (PyFloat.finite (mkRat 42 1)) := by decide
example : pyFloatParseChars "1e".toList = none := by decide
example : pyFloatParseChars "-INF".toList = some PyFloat.ninf := by decide
example : pyFloatParseChars ".5".toList = some (PyFloat.finite (mkRat 1 2)) := by decide
example : pyFloatParseChars "5.".toList = some (PyFloat.finite (mkRat 5 1)) := by decide
example : pyFloatParseChars ".".toList = none := by decide
example : pyFloatParseChars "1_.5".toList = none := by decide
example : renderFinite (mkRat 1999 100) = "19.99" := by decide
example : renderFinite (mkRat 42 1) = "42.0" := by decide
example : renderFinite (mkRat 0 1) = "0.0" := by decide
example : renderFinite (mkRat (-1) 2) = "-0.5" := by decide

/-! ## `_validate_and_transform` (`validation_agent.py` lines 138–193) -/

/-- The body of the `try` block of `_validate_and_transform` (lines
145–180): dispatch on the transformation kind.  The cell value is taken
as its Python stringification `str(value)` — the function reads the
value only through `str`. -/
def transform_try (value target_field transformation : String) : ValidationResult :=
  if transformation == "convert_to_integer" then
    match convertCleanInt value with
    | some n =>
      if value ≠ toString n then
        ⟨target_field, "fixed", value, toString n, "Converted to integer"⟩
      else
        ⟨target_field, "valid", value, toString n, "none"⟩
    | none => ⟨target_field, "fixed", value, "0", "Set to 0 (invalid number)"⟩
  else if transformation == "convert_to_decimal" then
    match pyFloatParseChars (commaToDot value.toList) with
    | some f =>
      if value ≠ pyStrFloat f then
        ⟨target_field, "fixed", value, pyStrFloat f, "Converted to decimal"⟩
      else
        ⟨target_field, "valid", value, pyStrFloat f, "none"⟩
    | none => ⟨target_field, "fixed", value, "0.0", "Set to 0.0 (invalid decimal)"⟩
  else if transformation == "parse_date" then
    if value ≠ parse_date value then
      ⟨target_field, "fixed", value, parse_date value, "Standardized date format"⟩
    else
      ⟨target_field, "valid", value, parse_date value, "none"⟩
  else
    ⟨target_field, "valid", value, String.mk (trimChars value.toList), "none"⟩

/-- A transformation body that may fail, as used by the outer
`try`/`except` of `_validate_and_transform`. -/
abbrev TransformBody := String → String → String → Except String ValidationResult

/-- The outer `try`/`except` of `_validate_and_transform` (lines
145–193): a failing body degrades to the stringified original value with
the initial status `"valid"` and action `"none"` — it never propagates. -/
def validate_and_transform_catch (body : TransformBody)
    (value target_field transformation : String) : ValidationResult :=
  match body value target_field transformation with
  | Except.ok r => r
  | Except.error _ => ⟨target_field, "valid", value, value, "none"⟩

/-- The actual transformation body: the translated `try` block, which
(being pure) always succeeds. -/
def transform_body : TransformBody :=
  fun value target_field transformation =>
    Except.ok (transform_try value target_field transformation)

/-- `_validate_and_transform`. -/
def validate_and_transform (value target_field transformation : String) : ValidationResult :=
  validate_and_transform_catch transform_body value target_field transformation

example : validate_and_transform "1,200" "quantity" "convert_to_integer"
    = ⟨"quantity", "fixed", "1,200", "1200", "Converted to integer"⟩ := by decide
example : validate_and_transform "42" "quantity" "convert_to_integer"
    = ⟨"quantity", "valid", "42", "42", "none"⟩ := by decide
example : validate_and_transform "abc" "quantity" "convert_to_integer"
    = ⟨"quantity", "fixed", "abc", "0", "Set to 0 (invalid number)"⟩ := by decide
example : validate_and_transform "19,99" "unit_price" "convert_to_decimal"
    = ⟨"unit_price", "fixed", "19,99", "19.99", "Converted to decimal"⟩ := by decide
example : validate_and_transform "x,y" "unit_price" "convert_to_decimal"
    = ⟨"unit_price", "fixed", "x,y", "0.0", "Set to 0.0 (invalid decimal)"⟩ := by decide
example : validate_and_transform "15.01.2024" "sale_date" "parse_date"
    = ⟨"sale_date", "fixed", "15.01.2024", "2024-01-15", "Standardized date format"⟩ := by decide
example : validate_and_transform "not-a-date" "sale_date" "parse_date"
    = ⟨"sale_date", "valid", "not-a-date", "not-a-date", "none"⟩ := by decide
example : validate_and_transform " not-a-date " "sale_date" "parse_date"
    = ⟨"sale_date", "fixed", " not-a-date ", "not-a-date", "Standardized date format"⟩ := by decide
example : validate_and_transform "  hi  " "customer_name" "none"
    = ⟨"customer_name", "valid", "  hi  ", "hi", "none"⟩ := by decide

/-- The `parse_date` branch of `_validate_and_transform` (lines 172–176),
as a rewriting equation. -/
theorem vt_parse_date (v tf : String) :
    validate_and_transform v tf "parse_date" =
      if v ≠ parse_date v then
        ⟨tf, "fixed", v, parse_date v, "Standardized date format"⟩
      else
        ⟨tf, "valid", v, parse_date v, "none"⟩ := rfl

/-- The `convert_to_integer` branch of `_validate_and_transform` (lines
146–157), as a rewriting equation. -/
theorem vt_integer (v tf : String) :
    validate_and_transform v tf "convert_to_integer" =
      match convertCleanInt v with
      | some n =>
        if v ≠ toString n then
          ⟨tf, "fixed", v, toString n, "Converted to integer"⟩
        else
          ⟨tf, "valid", v, toString n, "none"⟩
      | none => ⟨tf, "fixed", v, "0", "Set to 0 (invalid number)"⟩ := rfl

/-- The `convert_to_decimal` branch of `_validate_and_transform` (lines
159–170), as a rewriting equation. -/
theorem vt_decimal (v tf : String) :
    validate_and_transform v tf "convert_to_decimal" =
      match pyFloatParseChars (commaToDot v.toList) with
      | some f =>
        if v ≠ pyStrFloat f then
          ⟨tf, "fixed", v, pyStrFloat f, "Converted to decimal"⟩
        else
          ⟨tf, "valid", v, pyStrFloat f, "none"⟩
      | none => ⟨tf, "fixed", v, "0.0", "Set to 0.0 (invalid decimal)"⟩ := rfl

/-- First pattern that parses wins, stated on a decomposition of the
pattern list. -/
theorem tryPatterns_first (cs : List Char) :
    ∀ (l1 : List (Char × DOrder)) (p : Char × DOrder) (l2 : List (Char × DOrder))
      (r : Nat × Nat × Nat),
    (∀ q ∈ l1, strptimeDate q.1 q.2 cs = none) →
    strptimeDate p.1 p.2 cs = some r →
    tryPatterns (l1 ++ p :: l2) cs = some r := by
  intro l1
  induction l1 with
  | nil =>
    intro p l2 r _ hp
    simp [tryPatterns, hp]
  | cons q l1' ih =>
    intro p l2 r hnone hp
    have hq : strptimeDate q.1 q.2 cs = none := hnone q (List.mem_cons_self q l1')
    rw [List.cons_append]
    show tryPatterns (q :: (l1' ++ p :: l2)) cs = some r
    rw [tryPatterns, hq]
    exact ih p l2 r (fun x hx => hnone x (List.mem_cons_of_mem q hx)) hp

/-- C4 counterexample: `" not-a-date "` is matched by no pattern, yet the
outcome is *not* an unchanged pass-through with status `"valid"` — the
value is stripped and the status becomes `"fixed"`, refuting the claim's
no-match clause as stated. -/
theorem parse_date_unparsed_not_valid :
    tryPatterns datePatterns (trimChars " not-a-date ".toList) = none ∧
    (validate_and_transform " not-a-date " "sale_date" "parse_date").status = "fixed" ∧
    (validate_and_transform " not-a-date " "sale_date" "parse_date").final_value
      = "not-a-date" ∧
    (validate_and_transform " not-a-date " "sale_date" "parse_date").final_value
      ≠ " not-a-date " := by decide

/-- C4 (amended). `parse_date` strips the stringified value and tries the
ordered pattern list ISO `Y-M-D`, `D/M/Y`, `M/D/Y`, `D.M.Y`, `D-M-Y`;
the first pattern that parses wins and the value is normalized to ISO
text (status `"fixed"` exactly when the normalization differs from the
original value).  For every string matched by no pattern, the *stripped*
string passes through, and the status remains `"valid"` exactly when the
stripped string equals the original value (so strings without
surrounding whitespace pass through unchanged with status `"valid"`,
e.g. `"not-a-date"`, while `"15.01.2024"` yields `"2024-01-15"` with
status `"fixed"`). -/
theorem parse_date_spec (v tf : String) :
    (∀ l1 sep ord l2 y m d, datePatterns = l1 ++ (sep, ord) :: l2 →
      (∀ q ∈ l1, strptimeDate q.1 q.2 (trimChars v.toList) = none) →
      strptimeDate sep ord (trimChars v.toList) = some (y, m, d) →
      parse_date v = formatISO y m d ∧
      (validate_and_transform v tf "parse_date").final_value = formatISO y m d ∧
      ((validate_and_transform v tf "parse_date").status = "fixed" ↔ formatISO y m d ≠ v)) ∧
    (tryPatterns datePatterns (trimChars v.toList) = none →
      parse_date v = String.mk (trimChars v.toList) ∧
      (validate_and_transform v tf "parse_date").final_value
        = String.mk (trimChars v.toList) ∧
      ((validate_and_transform v tf "parse_date").status = "valid" ↔
        String.mk (trimChars v.toList) = v)) := by
  constructor
  · intro l1 sep ord l2 y m d hdec hnone hp
    have ht : tryPatterns datePatterns (trimChars v.toList) = some (y, m, d) := by
      rw [hdec]
      exact tryPatterns_first _ l1 (sep, ord) l2 (y, m, d) hnone hp
    have hpd : parse_date v = formatISO y m d := by
      unfold parse_date
      rw [ht]
    refine ⟨hpd, ?_, ?_⟩
    · rw [vt_parse_date, hpd]
      split <;> rfl
    · rw [vt_parse_date, hpd]
      rcases eq_or_ne v (formatISO y m d) with h | h
      · rw [if_neg (not_not_intro h)]
        exact iff_of_false (by simp) (fun hne => hne h.symm)
      · rw [if_pos h]
        exact iff_of_true rfl (fun he => h he.symm)
  · intro ht
    have hpd : parse_date v = String.mk (trimChars v.toList) := by
      unfold parse_date
      rw [ht]
    refine ⟨hpd, ?_, ?_⟩
    · rw [vt_parse_date, hpd]
      split <;> rfl
    · rw [vt_parse_date, hpd]
      rcases eq_or_ne v (String.mk (trimChars v.toList)) with h | h
      · rw [if_neg (not_not_intro h)]
        exact iff_of_true rfl h.symm
      · rw [if_pos h]
        exact iff_of_false (by simp) (fun he => h he.symm)

/-- Witness for C4 (amended) at the spec's examples: `"15.01.2024"` is
normalized by the fourth pattern to `"2024-01-15"` with status
`"fixed"`, and the unparseable `"not-a-date"` passes through unchanged
with status `"valid"`. -/
theorem parse_date_spec_witness :
    parse_date "15.01.2024" = formatISO 2024 1 15 ∧
    (validate_and_transform "15.01.2024" "sale_date" "parse_date").status = "fixed" ∧
    parse_date "not-a-date" = "not-a-date" ∧
    (validate_and_transform "not-a-date" "sale_date" "parse_date").status = "valid" := by
  have h1 := (parse_date_spec "15.01.2024" "sale_date").1
    [('-', DOrder.ymd), ('/', DOrder.dmy), ('/', DOrder.mdy)] '.' DOrder.dmy
    [('-', DOrder.dmy)] 2024 1 15 rfl (by decide) (by decide)
  have h2 := (parse_date_spec "not-a-date" "sale_date").2 (by decide)
  exact ⟨h1.1, h1.2.2.mpr (by decide), h2.1.trans (by decide), h2.2.2.mpr (by decide)⟩

/-- C5. `convert_to_integer` strips `','` and `' '` from the stringified
value and parses the result as a base-10 integer via `float`; on any
failure of that pipeline the final value is `0` with status `"fixed"`
and action `"Set to 0 (invalid number)"`; `"1,200"` yields `1200` with
status `"fixed"` and `"42"` yields `42` with status `"valid"`. -/
theorem convert_to_integer_spec (v tf : String) :
    (convertCleanInt v = none →
      validate_and_transform v tf "convert_to_integer"
        = ⟨tf, "fixed", v, "0", "Set to 0 (invalid number)"⟩) ∧
    (∀ n, convertCleanInt v = some n →
      validate_and_transform v tf "convert_to_integer"
        = if v ≠ toString n then
            ⟨tf, "fixed", v, toString n, "Converted to integer"⟩
          else
            ⟨tf, "valid", v, toString n, "none"⟩) ∧
    validate_and_transform "1,200" tf "convert_to_integer"
      = ⟨tf, "fixed", "1,200", "1200", "Converted to integer"⟩ ∧
    validate_and_transform "42" tf "convert_to_integer"
      = ⟨tf, "valid", "42", "42", "none"⟩ := by
  refine ⟨?_, ?_, rfl, rfl⟩
  · intro h
    rw [vt_integer, h]
  · intro n h
    rw [vt_integer, h]

/-- Witness for C5 at a concrete unparseable input. -/
theorem convert_to_integer_spec_witness :
    convertCleanInt "abc" = none ∧
    validate_and_transform "abc" "year" "convert_to_integer"
      = ⟨"year", "fixed", "abc", "0", "Set to 0 (invalid number)"⟩ :=
  ⟨by decide, (convert_to_integer_spec "abc" "year").1 (by decide)⟩

/-- C6. `convert_to_decimal` replaces `','` by `'.'` in the stringified
value and parses it as a float; `"19,99"` (no dot present) yields the
value 19.99 (printed `"19.99"`, status `"fixed"`); on any parse failure
the final value is `0.0` with status `"fixed"`. -/
theorem convert_to_decimal_spec (v tf : String) :
    (pyFloatParseChars (commaToDot v.toList) = none →
      validate_and_transform v tf "convert_to_decimal"
        = ⟨tf, "fixed", v, "0.0", "Set to 0.0 (invalid decimal)"⟩) ∧
    (∀ f, pyFloatParseChars (commaToDot v.toList) = some f →
      validate_and_transform v tf "convert_to_decimal"
        = if v ≠ pyStrFloat f then
            ⟨tf, "fixed", v, pyStrFloat f, "Converted to decimal"⟩
          else
            ⟨tf, "valid", v, pyStrFloat f, "none"⟩) ∧
    pyFloatParseChars (commaToDot "19,99".toList)
      = some (PyFloat.finite (mkRat 1999 100)) ∧
    validate_and_transform "19,99" tf "convert_to_decimal"
      = ⟨tf, "fixed", "19,99", "19.99", "Converted to decimal"⟩ := by
  refine ⟨?_, ?_, by decide, rfl⟩
  · intro h
    rw [vt_decimal, h]
  · intro f h
    rw [vt_decimal, h]

/-- Witness for C6 at a concrete unparseable input. -/
theorem convert_to_decimal_spec_witness :
    pyFloatParseChars (commaToDot "x,y".toList) = none ∧
    validate_and_transform "x,y" "price" "convert_to_decimal"
      = ⟨"price", "fixed", "x,y", "0.0", "Set to 0.0 (invalid decimal)"⟩ :=
  ⟨by decide, (convert_to_decimal_spec "x,y" "price").1 (by decide)⟩

/-! ## Quality score (`_calculate_quality_score`, lines 239–247) -/

/-- `r.status in ["valid", "fixed", "enriched"]`. -/
def statusCounts (r : ValidationResult) : Bool :=
  r.status == "valid" || r.status == "fixed" || r.status == "enriched"

/-- `_calculate_quality_score`: `0.0` on an empty list, otherwise the
fraction of outcomes whose status is valid/fixed/enriched. -/
def calculate_quality_score (rs : List ValidationResult) : ℚ :=
  if rs.isEmpty then 0
  else (rs.countP statusCounts : ℚ) / (rs.length : ℚ)

/-- C7. The quality score of the empty outcome list is exactly `0`
(never undefined); for a non-empty list it is the count of
valid/fixed/enriched outcomes divided by the total count; and it always
lies in `[0, 1]`. -/
theorem quality_score_spec :
    calculate_quality_score [] = 0 ∧
    (∀ rs : List ValidationResult, rs ≠ [] →
      calculate_quality_score rs = (rs.countP statusCounts : ℚ) / (rs.length : ℚ)) ∧
    (∀ rs : List ValidationResult,
      0 ≤ calculate_quality_score rs ∧ calculate_quality_score rs ≤ 1) := by
  refine ⟨rfl, ?_, ?_⟩
  · intro rs h
    cases rs with
    | nil => exact absurd rfl h
    | cons a l => rfl
  · intro rs
    cases rs with
    | nil => constructor <;> norm_num [calculate_quality_score]
    | cons a l =>
      have hq : calculate_quality_score (a :: l)
          = (((a :: l).countP statusCounts : ℚ)) / (((a :: l).length : ℚ)) := rfl
      have hlen : (0 : ℚ) < ((a :: l).length : ℚ) := by
        exact_mod_cast Nat.succ_pos l.length
      have hcount : (((a :: l).countP statusCounts : ℚ)) ≤ (((a :: l).length : ℚ)) := by
        exact_mod_cast List.countP_le_length statusCounts
      constructor
      · rw [hq]
        exact div_nonneg (by positivity) (le_of_lt hlen)
      · rw [hq]
        exact (div_le_one hlen).mpr hcount

/-- A concrete valid outcome for the C7 witness. -/
def c7r : ValidationResult := ⟨"quantity", "valid", "42", "42", "none"⟩

/-- Witness for C7 on a non-empty outcome list. -/
theorem quality_score_spec_witness :
    ([c7r] ≠ ([] : List ValidationResult)) ∧
    calculate_quality_score [c7r]
      = (([c7r].countP statusCounts : ℚ)) / (([c7r].length : ℚ)) :=
  ⟨by decide, quality_score_spec.2.1 [c7r] (by decide)⟩

/-! ## Country inference (`_infer_country`, lines 218–237) -/

/-- Python `str.lower` restricted to ASCII plus the Latin-1 accented
capitals (all the configured name patterns use only these). -/
def pyLowerChar (c : Char) : Char :=
  match c with
  | 'Á' => 'á' | 'À' => 'à' | 'Ã' => 'ã' | 'Ä' => 'ä' | 'Â' => 'â'
  | 'É' => 'é' | 'È' => 'è' | 'Ê' => 'ê' | 'Ë' => 'ë'
  | 'Í' => 'í' | 'Ì' => 'ì' | 'Î' => 'î' | 'Ï' => 'ï'
  | 'Ó' => 'ó' | 'Ò' => 'ò' | 'Õ' => 'õ' | 'Ö' => 'ö' | 'Ô' => 'ô'
  | 'Ú' => 'ú' | 'Ù' => 'ù' | 'Ü' => 'ü' | 'Û' => 'û'
  | 'Ç' => 'ç' | 'Ñ' => 'ñ'
  | c => c.toLower

/-- Python `str.lower()` over the alphabet used by the pattern tables. -/
def pyLower (s : String) : String := String.mk (s.toList.map pyLowerChar)

/-- `needle` starts `hay`. -/
def startsChars : List Char → List Char → Bool
  | [], _ => true
  | _ :: _, [] => false
  | a :: as, b :: bs => a == b && startsChars as bs

/-- Python substring containment `needle in hay`. -/
def containsSub : List Char → List Char → Bool
  | [], needle => needle.isEmpty
  | h :: t, needle => startsChars needle (h :: t) || containsSub t needle

/-- Python `pattern in name_lower` on strings. -/
def strContains (hay needle : String) : Bool :=
  containsSub hay.toList needle.toList

/-- `self.name_country_patterns` (`validation_agent.py` lines 29–35), in
insertion order. -/
def name_country_patterns : List (String × List String) :=
  [("spain", ["maría", "josé", "carlos", "ana", "manuel", "carmen", "antonio", "francisco"]),
   ("france", ["jean", "marie", "pierre", "jacques", "michel", "françoise", "nicolas", "philippe"]),
   ("germany", ["hans", "klaus", "werner", "günter", "helmut", "brigitte", "ursula", "ingrid"]),
   ("italy", ["giovanni", "giuseppe", "antonio", "francesco", "mario", "luigi", "alessandro"]),
   ("portugal", ["joão", "antónio", "josé", "manuel", "francisco", "luis", "pedro"])]

/-- `self.language_country_map` (`validation_agent.py` lines 37–44), in
insertion order. -/
def language_country_map : List (String × String) :=
  [("es", "Spain"), ("fr", "France"), ("de", "Germany"),
   ("it", "Italy"), ("pt", "Portugal"), ("en", "UK")]

/-- Python `str.title()` for the single lowercase words used as country
keys. -/
def pyTitle (s : String) : String := s.capitalize

/-- A row cell as the validation agent sees it: whether the Python value
is a `str`, and its stringification. -/
structure CellValue where
  isString : Bool
  text : String
deriving DecidableEq, Repr

/-- The inner country/pattern double loop of `_infer_country` (lines
226–229) on one lower-cased field value: first country with a matching
pattern wins, returned in title case. -/
def countryFor (nameLower : String) : Option String :=
  name_country_patterns.findSome? (fun p =>
    if p.2.any (fun pat => strContains nameLower pat) then some (pyTitle p.1) else none)

/-- The field loop of `_infer_country` (lines 222–229): scan the row's
string-valued fields in order. -/
def findNameCountry : List CellValue → Option String
  | [] => none
  | v :: rest =>
    if v.isString then
      match countryFor (pyLower v.text) with
      | some c => some c
      | none => findNameCountry rest
    else findNameCountry rest

/-- Association-list lookup (Python `key in dict` / `dict[key]`). -/
def lookupAssoc : List (String × String) → String → Option String
  | [], _ => none
  | (k, val) :: rest, key => if k == key then some val else lookupAssoc rest key

/-- The language-detection loop of `_infer_country` (lines 232–234):
first detected language with a country mapping wins. -/
def findLangCountry : List String → Option String
  | [] => none
  | l :: rest =>
    match lookupAssoc language_country_map l with
    | some c => some c
    | none => findLangCountry rest

/-- `_infer_country`: names first, then language detections, else
`"Unknown"`. -/
def infer_country (values : List CellValue) (langs : List String) : String :=
  match findNameCountry values with
  | some c => c
  | none =>
    match findLangCountry langs with
    | some c => c
    | none => "Unknown"

/-- The enrichment outcome recorded for a missing `country` field
(`validation_agent.py` lines 97–103). -/
def countryResult (values : List CellValue) (langs : List String) : ValidationResult :=
  ⟨"country", "enriched", "", infer_country values langs,
   "Inferred from name patterns and language"⟩

example : infer_country [⟨true, "María García"⟩] [] = "Spain" := by decide
example : infer_country [⟨true, "widget"⟩, ⟨false, "7"⟩] ["es"] = "Spain" := by decide
example : infer_country [⟨true, "widget"⟩] ["xx"] = "Unknown" := by decide
example : infer_country [⟨true, "JEAN DUPONT"⟩] [] = "France" := by decide

/-- `s` (lower-cased) contains one of country `c`'s configured name
patterns. -/
def nameMatches (s c : String) : Prop :=
  ∃ ps, (c, ps) ∈ name_country_patterns ∧ ∃ p ∈ ps, strContains (pyLower s) p = true

theorem countryFor_eq_none_iff (s : String) :
    countryFor (pyLower s) = none ↔ ∀ c, ¬ nameMatches s c := by
  constructor
  · rintro h c ⟨ps, hmem, p, hp, hcont⟩
    have hnone := List.findSome?_eq_none_iff.mp h (c, ps) hmem
    rw [if_pos] at hnone
    · exact Option.some_ne_none _ hnone
    · exact List.any_eq_true.mpr ⟨p, hp, hcont⟩
  · intro h
    apply List.findSome?_eq_none_iff.mpr
    intro q hq
    by_cases hc : q.2.any (fun pat => strContains (pyLower s) pat) = true
    · exfalso
      obtain ⟨p, hp, hcont⟩ := List.any_eq_true.mp hc
      exact h q.1 ⟨q.2, by rwa [Prod.mk.eta], p, hp, hcont⟩
    · simp [countryFor, hc]

/-- First element with a `some`-result wins, on a decomposed list. -/
theorem findSome_append_first {α β : Type} (f : α → Option β) :
    ∀ (t1 : List α) (x : α) (t2 : List α) (b : β),
    (∀ q ∈ t1, f q = none) → f x = some b →
    (t1 ++ x :: t2).findSome? f = some b := by
  intro t1
  induction t1 with
  | nil =>
    intro x t2 b _ hx
    rw [List.nil_append, List.findSome?_cons, hx]
  | cons q t1' ih =>
    intro x t2 b hnone hx
    rw [List.cons_append, List.findSome?_cons, hnone q (List.mem_cons_self q t1')]
    exact ih x t2 b (fun y hy => hnone y (List.mem_cons_of_mem q hy)) hx

theorem countryFor_first (s : String) (t1 : List (String × List String))
    (c : String) (ps : List String) (t2 : List (String × List String))
    (hdec : name_country_patterns = t1 ++ (c, ps) :: t2)
    (hnone : ∀ q ∈ t1, ∀ p ∈ q.2, ¬ strContains (pyLower s) p = true)
    (hhit : ∃ p ∈ ps, strContains (pyLower s) p = true) :
    countryFor (pyLower s) = some (pyTitle c) := by
  unfold countryFor
  rw [hdec]
  apply findSome_append_first
  · intro q hq
    have : ¬ q.2.any (fun pat => strContains (pyLower s) pat) = true := by
      intro hany
      obtain ⟨p, hp, hcont⟩ := List.any_eq_true.mp hany
      exact hnone q hq p hp hcont
    rw [if_neg this]
  · rw [if_pos (List.any_eq_true.mpr hhit)]

theorem findNameCountry_first (v1 : List CellValue) (s : String)
    (v2 : List CellValue) (r : String)
    (hnone : ∀ u ∈ v1, u.isString = true → countryFor (pyLower u.text) = none)
    (hs : countryFor (pyLower s) = some r) :
    findNameCountry (v1 ++ ⟨true, s⟩ :: v2) = some r := by
  induction v1 with
  | nil =>
    show (if true = true then
        match countryFor (pyLower s) with
        | some c => some c
        | none => findNameCountry v2
      else findNameCountry v2) = some r
    rw [if_pos rfl, hs]
  | cons u v1' ih =>
    show (if u.isString = true then
        match countryFor (pyLower u.text) with
        | some c => some c
        | none => findNameCountry (v1' ++ ⟨true, s⟩ :: v2)
      else findNameCountry (v1' ++ ⟨true, s⟩ :: v2)) = some r
    have ih' := ih (fun x hx => hnone x (List.mem_cons_of_mem u hx))
    by_cases hu : u.isString = true
    · rw [if_pos hu, hnone u (List.mem_cons_self u v1') hu]
      exact ih'
    · rw [if_neg hu]
      exact ih'

theorem findNameCountry_none (values : List CellValue)
    (hnone : ∀ u ∈ values, u.isString = true → countryFor (pyLower u.text) = none) :
    findNameCountry values = none := by
  induction values with
  | nil => rfl
  | cons u rest ih =>
    show (if u.isString = true then
        match countryFor (pyLower u.text) with
        | some c => some c
        | none => findNameCountry rest
      else findNameCountry rest) = none
    have ih' := ih (fun x hx => hnone x (List.mem_cons_of_mem u hx))
    by_cases hu : u.isString = true
    · rw [if_pos hu, hnone u (List.mem_cons_self u rest) hu]
      exact ih'
    · rw [if_neg hu]
      exact ih'

theorem findLangCountry_first (l1 : List String) (l : String) (l2 : List String)
    (co : String)
    (hnone : ∀ x ∈ l1, lookupAssoc language_country_map x = none)
    (hl : lookupAssoc language_country_map l = some co) :
    findLangCountry (l1 ++ l :: l2) = some co := by
  induction l1 with
  | nil =>
    show (match lookupAssoc language_country_map l with
      | some c => some c
      | none => findLangCountry l2) = some co
    rw [hl]
  | cons x l1' ih =>
    show (match lookupAssoc language_country_map x with
      | some c => some c
      | none => findLangCountry (l1' ++ l :: l2)) = some co
    rw [hnone x (List.mem_cons_self x l1')]
    exact ih (fun y hy => hnone y (List.mem_cons_of_mem x hy))

theorem findLangCountry_none (langs : List String)
    (hnone : ∀ x ∈ langs, lookupAssoc language_country_map x = none) :
    findLangCountry langs = none := by
  induction langs with
  | nil => rfl
  | cons x rest ih =>
    show (match lookupAssoc language_country_map x with
      | some c => some c
      | none => findLangCountry rest) = none
    rw [hnone x (List.mem_cons_self x rest)]
    exact ih (fun y hy => hnone y (List.mem_cons_of_mem x hy))

/-- C8. Country inference: the row's string-valued fields are scanned in
order against the per-country name-pattern table (countries in insertion
order, first match wins) and the matching country is returned in title
case; when no field matches, the first detected language tag with an
entry in the language→country table decides; otherwise the result is
`"Unknown"`.  The enrichment outcome records the inferred country with
status `"enriched"` and empty `original_value`. -/
theorem infer_country_spec :
    (∀ (values : List CellValue) (langs : List String) (v1 : List CellValue)
       (s : String) (v2 : List CellValue) (t1 : List (String × List String))
       (c : String) (ps : List String) (t2 : List (String × List String)),
      values = v1 ++ ⟨true, s⟩ :: v2 →
      (∀ u ∈ v1, u.isString = true → ∀ c', ¬ nameMatches u.text c') →
      name_country_patterns = t1 ++ (c, ps) :: t2 →
      (∀ q ∈ t1, ∀ p ∈ q.2, ¬ strContains (pyLower s) p = true) →
      (∃ p ∈ ps, strContains (pyLower s) p = true) →
      infer_country values langs = pyTitle c) ∧
    (∀ (values : List CellValue) (langs : List String) (l1 : List String)
       (l : String) (l2 : List String) (co : String),
      (∀ u ∈ values, u.isString = true → ∀ c', ¬ nameMatches u.text c') →
      langs = l1 ++ l :: l2 →
      (∀ x ∈ l1, lookupAssoc language_country_map x = none) →
      lookupAssoc language_country_map l = some co →
      infer_country values langs = co) ∧
    (∀ (values : List CellValue) (langs : List String),
      (∀ u ∈ values, u.isString = true → ∀ c', ¬ nameMatches u.text c') →
      (∀ x ∈ langs, lookupAssoc language_country_map x = none) →
      infer_country values langs = "Unknown") ∧
    (∀ (values : List CellValue) (langs : List String),
      countryResult values langs =
        ⟨"country", "enriched", "", infer_country values langs,
         "Inferred from name patterns and language"⟩) := by
  refine ⟨?_, ?_, ?_, fun _ _ => rfl⟩
  · intro values langs v1 s v2 t1 c ps t2 hval hv1 hdec hnone hhit
    subst hval
    have hcf : countryFor (pyLower s) = some (pyTitle c) :=
      countryFor_first s t1 c ps t2 hdec hnone hhit
    have hfn := findNameCountry_first v1 s v2 (pyTitle c)
      (fun u hu hstr => (countryFor_eq_none_iff u.text).mpr (hv1 u hu hstr)) hcf
    unfold infer_country
    rw [hfn]
  · intro values langs l1 l l2 co hval hlang hnone hl
    subst hlang
    have hfn := findNameCountry_none values
      (fun u hu hstr => (countryFor_eq_none_iff u.text).mpr (hval u hu hstr))
    have hfl := findLangCountry_first l1 l l2 co hnone hl
    unfold infer_country
    rw [hfn, hfl]
  · intro values langs hval hnone
    have hfn := findNameCountry_none values
      (fun u hu hstr => (countryFor_eq_none_iff u.text).mpr (hval u hu hstr))
    have hfl := findLangCountry_none langs hnone
    unfold infer_country
    rw [hfn, hfl]

/-- Witness for C8 at the spec's example: a row containing
`"María García"` (and no language hints) infers `"Spain"`, recorded as
an `"enriched"` outcome with empty original value. -/
theorem infer_country_spec_witness :
    infer_country [⟨true, "María García"⟩] [] = "Spain" ∧
    countryResult [⟨true, "María García"⟩] []
      = ⟨"country", "enriched", "", "Spain",
         "Inferred from name patterns and language"⟩ := by
  have h := infer_country_spec.1 [⟨true, "María García"⟩] [] [] "María García" []
    [] "spain" ["maría", "josé", "carlos", "ana", "manuel", "carmen", "antonio", "francisco"]
    name_country_patterns.tail rfl (fun u hu => absurd hu (List.not_mem_nil u)) rfl
    (fun q hq => absurd hq (List.not_mem_nil q)) ⟨"maría", by decide, by decide⟩
  have hs : infer_country [⟨true, "María García"⟩] [] = "Spain" := h.trans (by decide)
  exact ⟨hs, by rw [infer_country_spec.2.2.2, hs]⟩

/-! ## Batch driver (`validate_and_enhance_data`, lines 58–136)

The CSV read (`pd.read_csv`) is modelled as an `Except String (List Row)`
input: `Except.error` models an exception raised while reading, caught by
the handler at lines 130–136. -/

/-- One row: association list from column name to cell. -/
abbrev Row := List (String × CellValue)

/-- `processing_summary` (lines 111–117 or 134). -/
inductive ProcessingSummary where
  | failure (error : String)
  | success (total_records fields_mapped fields_enriched : Nat)
      (quality_score : ℚ) (validation_results : Nat)
deriving DecidableEq, Repr

/-- `FinalResultMessage` (`src/core/models.py` lines 57–60), with the
summary dict narrowed to the fields the pipeline writes. -/
structure FinalResultMessage where
  mapped_data : List (List (String × String))
  processing_summary : ProcessingSummary
  success : Bool
deriving DecidableEq, Repr

/-- The `quality_score` entry of a summary, when present. -/
def summaryQuality : ProcessingSummary → Option ℚ
  | ProcessingSummary.failure _ => none
  | ProcessingSummary.success _ _ _ q _ => some q

/-- Python dict assignment `d[k] = v` on an insertion-ordered
association list: overwrite in place, else append. -/
def dictInsert (d : List (String × String)) (k v : String) : List (String × String) :=
  if d.any (fun p => p.1 == k) then d.map (fun p => if p.1 == k then (k, v) else p)
  else d ++ [(k, v)]

/-- `source_col in row` / `row[source_col]` on a row Series. -/
def lookupRow : Row → String → Option CellValue
  | [], _ => none
  | (k, v) :: rest, c => if k == c then some v else lookupRow rest c

/-- The mapped-field loop of one row (lines 76–89): for each mapping
whose source column is present, transform the cell, record the outcome,
and write the final value under the target field. -/
def processRowFieldsGo (body : TransformBody) (row : Row) :
    List SchemaMapping → List ValidationResult → List (String × String) →
    List ValidationResult × List (String × String)
  | [], rs, er => (rs, er)
  | m :: rest, rs, er =>
    match lookupRow row m.source_column with
    | some cell =>
      processRowFieldsGo body row rest
        (rs ++ [validate_and_transform_catch body cell.text m.target_field
          m.transformation_needed])
        (dictInsert er m.target_field
          (validate_and_transform_catch body cell.text m.target_field
            m.transformation_needed).final_value)
    | none => processRowFieldsGo body row rest rs er

/-- The missing-field loop of one row (lines 92–103): only `"country"`
triggers enrichment. -/
def processMissingGo (values : List CellValue) (langs : List String) :
    List String → List ValidationResult → List (String × String) →
    List ValidationResult × List (String × String)
  | [], rs, er => (rs, er)
  | f :: rest, rs, er =>
    if f == "country" then
      processMissingGo values langs rest (rs ++ [countryResult values langs])
        (dictInsert er "country" (infer_country values langs))
    else processMissingGo values langs rest rs er

/-- One row of the loop body (lines 72–105). -/
def processRow (body : TransformBody) (mappings : List SchemaMapping)
    (missing : List String) (langs : List String) (row : Row) :
    List ValidationResult × List (String × String) :=
  processMissingGo (row.map Prod.snd) langs missing
    (processRowFieldsGo body row mappings [] []).1
    (processRowFieldsGo body row mappings [] []).2

/-- The row loop: accumulated validation outcomes and enhanced rows. -/
def processRows (body : TransformBody) (mappings : List SchemaMapping)
    (missing : List String) (langs : List String) :
    List Row → List ValidationResult × List (List (String × String))
  | [] => ([], [])
  | row :: rest =>
    ((processRow body mappings missing langs row).1
        ++ (processRows body mappings missing langs rest).1,
     (processRow body mappings missing langs row).2
        :: (processRows body mappings missing langs rest).2)

/-- `validate_and_enhance_data`, generic in the per-field transformation
body (lines 58–136): an unreadable input short-circuits to a failure
message with no rows; otherwise every row is processed and the summary
carries the quality score. -/
def validate_and_enhance_with (body : TransformBody) (mappings : List SchemaMapping)
    (missing : List String) (langs : List String)
    (csvData : Except String (List Row)) : FinalResultMessage :=
  match csvData with
  | Except.error e => ⟨[], ProcessingSummary.failure e, false⟩
  | Except.ok rows =>
    ⟨(processRows body mappings missing langs rows).2,
     ProcessingSummary.success rows.length mappings.length missing.length
       (calculate_quality_score (processRows body mappings missing langs rows).1)
       (processRows body mappings missing langs rows).1.length,
     true⟩

/-- `validate_and_enhance_data` with the actual transformation body. -/
def validate_and_enhance_data (mappings : List SchemaMapping)
    (missing : List String) (langs : List String)
    (csvData : Except String (List Row)) : FinalResultMessage :=
  validate_and_enhance_with transform_body mappings missing langs csvData

/-- One enhanced row per input row, whatever the transformation body
does. -/
theorem processRows_length (body : TransformBody) (mappings : List SchemaMapping)
    (missing langs : List String) :
    ∀ rows : List Row,
      (processRows body mappings missing langs rows).2.length = rows.length := by
  intro rows
  induction rows with
  | nil => rfl
  | cons row rest ih => simp [processRows, ih]

/-- C9. Batch-failure atomicity: a pipeline-level failure (unreadable
input) short-circuits the whole batch — the result has `success = false`,
the explicit error message, and no enhanced rows; whereas a per-field
transformation failure never fails the batch: for *any* transformation
body (even an always-failing one) the batch still succeeds with one
enhanced row per input row, and a failing field degrades locally to the
stringified original value. -/
theorem batch_atomicity :
    (∀ (body : TransformBody) (mappings : List SchemaMapping)
       (missing langs : List String) (e : String),
      validate_and_enhance_with body mappings missing langs (Except.error e)
        = ⟨[], ProcessingSummary.failure e, false⟩) ∧
    (∀ (body : TransformBody) (mappings : List SchemaMapping)
       (missing langs : List String) (rows : List Row),
      (validate_and_enhance_with body mappings missing langs (Except.ok rows)).success
        = true ∧
      (validate_and_enhance_with body mappings missing langs
        (Except.ok rows)).mapped_data.length = rows.length) ∧
    (∀ (body : TransformBody) (v tf k msg : String),
      body v tf k = Except.error msg →
      validate_and_transform_catch body v tf k = ⟨tf, "valid", v, v, "none"⟩) := by
  refine ⟨fun _ _ _ _ _ => rfl, ?_, ?_⟩
  · intro body mappings missing langs rows
    exact ⟨rfl, processRows_length body mappings missing langs rows⟩
  · intro body v tf k msg h
    unfold validate_and_transform_catch
    rw [h]

/-- Witness for C9: an always-failing transformation body degrades to
the stringified original value with status `"valid"`. -/
theorem batch_atomicity_witness :
    ((fun _ _ _ => Except.error "boom" : TransformBody) "val" "f" "k"
      = Except.error "boom") ∧
    validate_and_transform_catch (fun _ _ _ => Except.error "boom") "val" "f" "k"
      = ⟨"f", "valid", "val", "val", "none"⟩ :=
  ⟨rfl, batch_atomicity.2.2 (fun _ _ _ => Except.error "boom") "val" "f" "k" "boom" rfl⟩

/-- Every outcome the translated `try` body constructs has status
`"valid"` or `"fixed"` — no `"error"` status exists in the code. -/
theorem transform_try_status (v tf k : String) :
    (transform_try v tf k).status = "valid" ∨ (transform_try v tf k).status = "fixed" := by
  unfold transform_try
  repeat' split
  all_goals simp

/-- Membership in the outcomes of the mapped-field loop. -/
theorem processRowFieldsGo_mem (body : TransformBody) (row : Row) :
    ∀ (ms : List SchemaMapping) (rs : List ValidationResult)
      (er : List (String × String)) (r : ValidationResult),
    r ∈ (processRowFieldsGo body row ms rs er).1 →
    r ∈ rs ∨ ∃ v tf k, r = validate_and_transform_catch body v tf k := by
  intro ms
  induction ms with
  | nil => intro rs er r h; exact Or.inl h
  | cons m rest ih =>
    intro rs er r h
    cases hl : lookupRow row m.source_column with
    | some cell =>
      rw [processRowFieldsGo, hl] at h
      rcases ih _ _ r h with hmem | hex
      · rcases List.mem_append.mp hmem with hrs | hone
        · exact Or.inl hrs
        · rcases List.mem_singleton.mp hone with rfl
          exact Or.inr ⟨cell.text, m.target_field, m.transformation_needed, rfl⟩
      · exact Or.inr hex
    | none =>
      rw [processRowFieldsGo, hl] at h
      exact ih _ _ r h

/-- Membership in the outcomes of the missing-field loop. -/
theorem processMissingGo_mem (values : List CellValue) (langs : List String) :
    ∀ (fs : List String) (rs : List ValidationResult) (er : List (String × String))
      (r : ValidationResult),
    r ∈ (processMissingGo values langs fs rs er).1 →
    r ∈ rs ∨ r = countryResult values langs := by
  intro fs
  induction fs with
  | nil => intro rs er r h; exact Or.inl h
  | cons f rest ih =>
    intro rs er r h
    by_cases hf : (f == "country") = true
    · rw [processMissingGo, if_pos hf] at h
      rcases ih _ _ r h with hmem | hc
      · rcases List.mem_append.mp hmem with hrs | hone
        · exact Or.inl hrs
        · exact Or.inr (List.mem_singleton.mp hone)
      · exact Or.inr hc
    · rw [processMissingGo, if_neg hf] at h
      exact ih _ _ r h

/-- Every recorded outcome comes from a field transformation or from
country enrichment. -/
theorem processRows_mem (body : TransformBody) (mappings : List SchemaMapping)
    (missing langs : List String) :
    ∀ (rows : List Row) (r : ValidationResult),
    r ∈ (processRows body mappings missing langs rows).1 →
    (∃ v tf k, r = validate_and_transform_catch body v tf k) ∨
    (∃ values, r = countryResult values langs) := by
  intro rows
  induction rows with
  | nil => intro r h; cases h
  | cons row rest ih =>
    intro r h
    rcases List.mem_append.mp h with hrow | hrest
    · rcases processMissingGo_mem (row.map Prod.snd) langs missing _ _ r hrow
        with hfield | hc
      · rcases processRowFieldsGo_mem body row mappings _ _ r hfield with hnil | hex
        · cases hnil
        · exact Or.inl hex
      · exact Or.inr ⟨row.map Prod.snd, hc⟩
    · exact ih r hrest

/-- C10. Every `ValidationResult` the pipeline constructs has status in
`{valid, fixed, enriched}` — no error status is ever produced — and
therefore the quality score of every non-empty outcome sequence of a
successful batch is exactly `1`. -/
theorem outcome_statuses_and_score (mappings : List SchemaMapping)
    (missing langs : List String) (rows : List Row) :
    (∀ r ∈ (processRows transform_body mappings missing langs rows).1,
      r.status = "valid" ∨ r.status = "fixed" ∨ r.status = "enriched") ∧
    ((processRows transform_body mappings missing langs rows).1 ≠ [] →
      calculate_quality_score (processRows transform_body mappings missing langs rows).1
        = 1) ∧
    ((processRows transform_body mappings missing langs rows).1 ≠ [] →
      summaryQuality (validate_and_enhance_data mappings missing langs
        (Except.ok rows)).processing_summary = some 1) := by
  have hstat : ∀ r ∈ (processRows transform_body mappings missing langs rows).1,
      r.status = "valid" ∨ r.status = "fixed" ∨ r.status = "enriched" := by
    intro r hr
    rcases processRows_mem transform_body mappings missing langs rows r hr with
      ⟨v, tf, k, rfl⟩ | ⟨values, rfl⟩
    · rcases transform_try_status v tf k with h | h
      · exact Or.inl h
      · exact Or.inr (Or.inl h)
    · exact Or.inr (Or.inr rfl)
  have hscore : (processRows transform_body mappings missing langs rows).1 ≠ [] →
      calculate_quality_score (processRows transform_body mappings missing langs rows).1
        = 1 := by
    intro hne
    have hcount : (processRows transform_body mappings missing langs rows).1.countP
          statusCounts
        = (processRows transform_body mappings missing langs rows).1.length := by
      apply List.countP_eq_length.mpr
      intro a ha
      rcases hstat a ha with h | h | h <;> simp [statusCounts, h]
    cases hl : (processRows transform_body mappings missing langs rows).1 with
    | nil => exact absurd hl hne
    | cons a l =>
      rw [hl] at hcount
      have : calculate_quality_score (a :: l)
          = (((a :: l).countP statusCounts : ℚ)) / (((a :: l).length : ℚ)) := rfl
      rw [this, hcount]
      exact div_self (Nat.cast_ne_zero.mpr (by simp))
  refine ⟨hstat, hscore, ?_⟩
  intro hne
  have h1 := hscore hne
  show summaryQuality (ProcessingSummary.success _ _ _ _ _) = some 1
  rw [summaryQuality, h1]

/-- A mapped quantity column for the C10 witness. -/
def w10mapping : SchemaMapping :=
  ⟨"cantidad", "quantity", mkRat 9 10, "convert_to_integer", "mapped", none⟩

/-- A one-cell row for the C10 witness. -/
def w10row : Row := [("cantidad", ⟨true, "5"⟩)]

/-- Witness for C10: a one-row batch with one mapped field and country
enrichment reports quality score exactly `1`. -/
theorem outcome_statuses_and_score_witness :
    ((processRows transform_body [w10mapping] ["country"] ["es"] [w10row]).1 ≠ []) ∧
    summaryQuality (validate_and_enhance_data [w10mapping] ["country"] ["es"]
      (Except.ok [w10row])).processing_summary = some 1 :=
  ⟨by decide,
   (outcome_statuses_and_score [w10mapping] ["country"] ["es"] [w10row]).2.2 (by decide)⟩

end Forge
